import Mathlib

/-!
Shallow embedding of the SO(3) resetability core of `resetability_suite`
(`python/so3_reset.py`, `python/core_math.py`, `python/montecarlo_robot.py`).

Machine floats are modelled as exact real numbers `ℝ`; Python floats used
only in integer-producing construction arithmetic (`SO3ResetStream.__init__`)
are modelled as rationals `ℚ` so that the resulting capacity is computable.
NumPy arrays of length 3 and 4 become the structures `Vec3` and `Quat`.
A value recorded as NaN by an exception handler is modelled as `Option.none`.
-/

/-- A quaternion `[w, x, y, z]` (a NumPy array of 4 floats in the source). -/
structure Quat where
  w : ℝ
  x : ℝ
  y : ℝ
  z : ℝ

/-- A 3-vector (a NumPy array of 3 floats in the source). -/
structure Vec3 where
  x : ℝ
  y : ℝ
  z : ℝ

/-- Python `int(q)` for a float `q`: truncation toward zero.
Used by `SO3ResetStream.__init__` (`int(window_sec / dt)`). -/
def pytrunc (q : ℚ) : ℤ :=
  if 0 ≤ q then ⌊q⌋ else ⌈q⌉

/-- State of `SO3ResetStream`: the fixed step `dt`, the fixed capacity `N`
computed at construction, and the rolling buffer `buf`. -/
structure SO3ResetStream where
  dt : ℚ
  N : ℕ
  buf : List (Vec3 × ℝ)

/-- Source `SO3ResetStream.__init__(window_sec, dt)`:
`self.N = max(1, int(window_sec / dt))`, `self.buf = []`. -/
def mkStream (window_sec dt : ℚ) : SO3ResetStream :=
  { dt := dt, N := max 1 (pytrunc (window_sec / dt)).toNat, buf := [] }

noncomputable section

open Classical

/-- Source `quat_mul(a, b)`: the Hamilton product. -/
def quat_mul (a b : Quat) : Quat :=
  { w := a.w * b.w - a.x * b.x - a.y * b.y - a.z * b.z
    x := a.w * b.x + a.x * b.w + a.y * b.z - a.z * b.y
    y := a.w * b.y - a.x * b.z + a.y * b.w + a.z * b.x
    z := a.w * b.z + a.x * b.y - a.y * b.x + a.z * b.w }

/-- Euclidean norm of a quaternion, `np.linalg.norm(q)` for a 4-array. -/
def qnorm (q : Quat) : ℝ :=
  Real.sqrt (q.w ^ 2 + q.x ^ 2 + q.y ^ 2 + q.z ^ 2)

/-- Euclidean norm of a 3-vector, `np.linalg.norm(n)` for a 3-array. -/
def vnorm (v : Vec3) : ℝ :=
  Real.sqrt (v.x ^ 2 + v.y ^ 2 + v.z ^ 2)

/-- Source `quat_normalize(q)`: `q / (np.linalg.norm(q) + 1e-15)`. -/
def quat_normalize (q : Quat) : Quat :=
  let d := qnorm q + 1e-15
  { w := q.w / d, x := q.x / d, y := q.y / d, z := q.z / d }

/-- Source `axang_to_quat(n, th)`:
`n /= np.linalg.norm(n) + 1e-12; return [cos(th/2), sin(th/2) * n]`. -/
def axang_to_quat (n : Vec3) (th : ℝ) : Quat :=
  let d := vnorm n + 1e-12
  { w := Real.cos (th / 2)
    x := Real.sin (th / 2) * (n.x / d)
    y := Real.sin (th / 2) * (n.y / d)
    z := Real.sin (th / 2) * (n.z / d) }

/-- NumPy `np.clip(x, lo, hi)` as used on scalars. -/
def clip (x lo hi : ℝ) : ℝ := min (max x lo) hi

/-- Source `quat_to_axang(q)`: normalize, clamp `w` to `[-1, 1]`,
`th = 2*arccos(w)`; degenerate case returns `([1,0,0], 0.0)`; otherwise
divide the vector part by `sqrt(max(1 - w*w, 1e-12))`. -/
def quat_to_axang (q : Quat) : Vec3 × ℝ :=
  let qn := quat_normalize q
  let w := clip qn.w (-1) 1
  let th := 2 * Real.arccos w
  if th < 1e-12 then (⟨1, 0, 0⟩, 0)
  else
    let s := Real.sqrt (max (1 - w * w) 1e-12)
    (⟨qn.x / s, qn.y / s, qn.z / s⟩, th)

/-- The identity quaternion `[1, 0, 0, 0]` seeding `compose_seq`. -/
def qId : Quat := ⟨1, 0, 0, 0⟩

/-- Loop body of `compose_seq`: `q = quat_mul(axang_to_quat(n, th), q)`. -/
def composeStep (q : Quat) (p : Vec3 × ℝ) : Quat :=
  quat_mul (axang_to_quat p.1 p.2) q

/-- Source `compose_seq(seq)`: left-fold the increments onto the identity,
then normalize. -/
def compose_seq (seq : List (Vec3 × ℝ)) : Quat :=
  quat_normalize (seq.foldl composeStep qId)

/-- The resettability residual applied to the twice-composed quaternion in
`estimate_lambda_and_R`: `R = 1.0 - abs(np.clip(qreset[0], -1.0, 1.0))`. -/
def R_of (q : Quat) : ℝ := 1 - |clip q.w (-1) 1|

/-- Source `estimate_lambda_and_R(seq)`: empty sequence returns
`(1.0, 1.0, 0.0)`; otherwise `lam = pi/th` (guarded), the λ-scaled sequence
is composed once into `q1`, and `R = R_of (quat_mul q1 q1)`. -/
def estimate_lambda_and_R (seq : List (Vec3 × ℝ)) : ℝ × ℝ × ℝ :=
  if seq.isEmpty then (1, 1, 0)
  else
    let qnet := compose_seq seq
    let th := (quat_to_axang qnet).2
    let lam := if th > 1e-12 then Real.pi / th else 1
    let scaled := seq.map (fun p => (p.1, lam * p.2))
    let q1 := compose_seq scaled
    (lam, R_of (quat_mul q1 q1), th)

/-- NumPy negation `-q` of a quaternion array: the global sign flip of the
double-cover property. -/
def quat_neg (q : Quat) : Quat := ⟨-q.w, -q.x, -q.y, -q.z⟩

/-- Source `quat_conj(q)`: `[w, -x, -y, -z]`. -/
def quat_conj (q : Quat) : Quat := ⟨q.w, -q.x, -q.y, -q.z⟩

/-- Source `core_math.quat_error(q_ref, q)`: `quat_mul(q_ref, quat_conj(q))`. -/
def quat_error (q_ref q : Quat) : Quat := quat_mul q_ref (quat_conj q)

/-- NumPy `np.degrees(x)`: `x * 180 / pi`. -/
def deg (x : ℝ) : ℝ := x * 180 / Real.pi

/-- Source `predict_reset_benefit(seq, q_current)`: empty sequence returns
`(0, 0, 0, 1, 1, 0)`; otherwise compares the no-reset future against the
λ-scaled twice-applied future. -/
def predict_reset_benefit (seq : List (Vec3 × ℝ)) (q_current : Quat) :
    ℝ × ℝ × ℝ × ℝ × ℝ × ℝ :=
  if seq.isEmpty then (0, 0, 0, 1, 1, 0)
  else
    let e := estimate_lambda_and_R seq
    let lam := e.1
    let R := e.2.1
    let theta_net := e.2.2
    let th_noreset := (quat_to_axang (quat_mul (compose_seq seq) q_current)).2
    let scaled := seq.map (fun p => (p.1, lam * p.2))
    let scaled_twice := scaled ++ scaled
    let th_withreset :=
      (quat_to_axang (quat_mul (compose_seq scaled_twice) q_current)).2
    (deg (th_noreset - th_withreset), deg th_noreset, deg th_withreset,
      lam, R, theta_net)

/-- Source `SO3ResetStream.push_axis_angle_increment(n, dtheta)`: no-op when
the axis norm or the angle is below `1e-12`; otherwise normalize the axis,
append, and pop the front when the buffer exceeds `N`. -/
def push_axis_angle_increment (st : SO3ResetStream) (n : Vec3) (dtheta : ℝ) :
    SO3ResetStream :=
  if vnorm n < 1e-12 ∨ |dtheta| < 1e-12 then st
  else
    let d := vnorm n + 1e-12
    let n' : Vec3 := ⟨n.x / d, n.y / d, n.z / d⟩
    let buf' := st.buf ++ [(n', dtheta)]
    { st with buf := if st.N < buf'.length then buf'.tail else buf' }

/-- One row of the metrics table built by `core_math.analyze_from_quats`.
`predicted_benefit_deg = none` models the NaN recorded when the predictor
call raised. -/
structure MetricRow where
  timestamp : ℝ
  R : ℝ
  theta_net_deg : ℝ
  predicted_benefit_deg : Option ℝ

/-- The telemetry DataFrame as consumed by `analyze_from_quats`: whether all
of the columns `qw,qx,qy,qz` are present, the quaternion rows, and the
optional `timestamp` column. -/
structure QuatFrame where
  hasCols : Bool
  quats : List Quat
  tstamps : Option (List ℝ)

/-- Inner loop of `analyze_from_quats` building the window's increment
sequence: for `j in range(i - window, i)`, `dq = quat_error(quats[j+1],
quats[j])` converted to axis-angle. -/
def window_seq (quats : List Quat) (window i : ℕ) : List (Vec3 × ℝ) :=
  (List.range window).map fun k =>
    let j := i - window + k
    quat_to_axang (quat_error (quats.getD (j + 1) qId) (quats.getD j qId))

/-- Timestamp lookup of `analyze_from_quats`: the `timestamp` column when
present, else `np.arange(len(quats)) / max(fps, 1)`. -/
def frame_ts (df : QuatFrame) (fps : ℝ) (i : ℕ) : ℝ :=
  match df.tstamps with
  | some l => l.getD i 0
  | none => (i : ℝ) / max fps 1

/-- Body of the `for i in range(window, end)` loop of `analyze_from_quats`,
generalized over the possibly-failing predictor call `p` (the `try/except`
block: `some` is a normal return, `none` is a caught exception → NaN). -/
def analyzeRow (p : List (Vec3 × ℝ) → Quat → Option ℝ) (quats : List Quat)
    (tsAt : ℕ → ℝ) (window i : ℕ) : MetricRow :=
  let seq := window_seq quats window i
  let e := estimate_lambda_and_R seq
  { timestamp := tsAt i
    R := e.2.1
    theta_net_deg := deg e.2.2
    predicted_benefit_deg := p seq (quat_normalize (quats.getD i qId)) }

/-- The row-appending loop of `analyze_from_quats`, iterating `i` upward
with `fuel` remaining iterations (`fuel = end - window` at the call site). -/
def analyze_rows (p : List (Vec3 × ℝ) → Quat → Option ℝ) (quats : List Quat)
    (tsAt : ℕ → ℝ) (window : ℕ) : ℕ → ℕ → List MetricRow
  | _, 0 => []
  | i, fuel + 1 =>
      analyzeRow p quats tsAt window i ::
        analyze_rows p quats tsAt window (i + 1) fuel

/-- The candidate condition of `analyze_from_quats`:
`R < 0.05 ∧ theta_net_deg > 1.0 ∧ predicted_benefit_deg > 0` (a NaN
benefit compares false, as in pandas). -/
def CandProp (r : MetricRow) : Prop :=
  r.R < 0.05 ∧ r.theta_net_deg > 1 ∧
    match r.predicted_benefit_deg with
    | some b => b > 0
    | none => False

/-- Source `core_math.analyze_from_quats(df, window, fps)` generalized over
the predictor call `p` guarded by its `try/except`: empty frame or missing
quaternion columns → two empty tables; `end = len - 1 ≤ window` → two empty
tables; otherwise one row per `i in range(window, end)` and the candidate
filter applied to the metrics. -/
def analyze_from_quatsP (p : List (Vec3 × ℝ) → Quat → Option ℝ)
    (df : QuatFrame) (window : ℕ) (fps : ℝ) :
    List MetricRow × List MetricRow :=
  if df.quats.isEmpty || !df.hasCols then ([], [])
  else
    let e := df.quats.length - 1
    if e ≤ window then ([], [])
    else
      let metrics :=
        analyze_rows p df.quats (frame_ts df fps) window window (e - window)
      (metrics, metrics.filter fun r => decide (CandProp r))

/-- Source `core_math.analyze_from_quats` proper: the predictor call is
`predict_reset_benefit(seq, quat_normalize(quats[i]))`, keeping only the
first returned component (`benefit_deg, *_ = ...`). -/
def analyze_from_quats (df : QuatFrame) (window : ℕ) (fps : ℝ) :
    List MetricRow × List MetricRow :=
  analyze_from_quatsP
    (fun seq q => some (predict_reset_benefit seq q).1) df window fps

/-- Source `montecarlo_robot.random_rotation_seq(n_steps, step_mean,
step_std)`, generalized over the global NumPy generator: state type `S`,
`randn3` drawing a standard-normal 3-vector and `normal` drawing one
`np.random.normal(mean, std)` sample.  Each step normalizes the random
axis with a `1e-12` guard and takes `abs` of the Gaussian angle. -/
def random_rotation_seq {S : Type} (randn3 : S → (ℝ × ℝ × ℝ) × S)
    (normal : ℝ → ℝ → S → ℝ × S) :
    ℕ → ℝ → ℝ → S → List (Vec3 × ℝ) × S
  | 0, _, _, s => ([], s)
  | n + 1, m, sd, s =>
      let a := randn3 s
      let d := Real.sqrt (a.1.1 ^ 2 + a.1.2.1 ^ 2 + a.1.2.2 ^ 2) + 1e-12
      let axis : Vec3 := ⟨a.1.1 / d, a.1.2.1 / d, a.1.2.2 / d⟩
      let t := normal m sd a.2
      let rest := random_rotation_seq randn3 normal n m sd t.2
      ((axis, |t.1|) :: rest.1, rest.2)

/-- The nominal orientation of `run_montecarlo`:
`axang_to_quat([0, 0, 1], 0.05)`. -/
def mc_qcurrent : Quat := axang_to_quat ⟨0, 0, 1⟩ 0.05

/-- The `try` body of the Monte Carlo loop for one run:
`estimate_lambda_and_R` then `predict_reset_benefit`, recording
`(R, degrees(th_net), benefit_deg)`. -/
def mc_compute (seq : List (Vec3 × ℝ)) (q : Quat) : Option (ℝ × ℝ × ℝ) :=
  let e := estimate_lambda_and_R seq
  some (e.2.1, deg e.2.2, (predict_reset_benefit seq q).1)

/-- The run loop of `run_montecarlo`, generalized over the possibly-failing
per-run computation `comp` (`none` models the `except` branch recording
`(nan, nan, nan)`).  Returns the result rows and the final generator
state. -/
def mc_loop {S : Type} (randn3 : S → (ℝ × ℝ × ℝ) × S)
    (normal : ℝ → ℝ → S → ℝ × S)
    (comp : List (Vec3 × ℝ) → Quat → Option (ℝ × ℝ × ℝ)) :
    ℕ → ℕ → ℝ → S → List (Option (ℝ × ℝ × ℝ)) × S
  | 0, _, _, s => ([], s)
  | n + 1, n_steps, sigma, s =>
      let g := random_rotation_seq randn3 normal n_steps 0.02 sigma s
      let row := comp g.1 mc_qcurrent
      let rest := mc_loop randn3 normal comp n n_steps sigma g.2
      (row :: rest.1, rest.2)

/-- The sequence of per-run increment sequences that the Monte Carlo loop
feeds to its per-run computation (one entry per run, in draw order). -/
def mc_inputs {S : Type} (randn3 : S → (ℝ × ℝ × ℝ) × S)
    (normal : ℝ → ℝ → S → ℝ × S) :
    ℕ → ℕ → ℝ → S → List (List (Vec3 × ℝ))
  | 0, _, _, _ => []
  | n + 1, n_steps, sigma, s =>
      let g := random_rotation_seq randn3 normal n_steps 0.02 sigma s
      g.1 :: mc_inputs randn3 normal n n_steps sigma g.2

/-- Source `montecarlo_robot.run_montecarlo` generalized over the per-run
computation: the first statement `np.random.seed(seed)` replaces the
ambient global generator state `s0` with `seedFn seed`, then the run loop
draws from that state. -/
def run_montecarloP {S : Type} (seedFn : ℕ → S)
    (randn3 : S → (ℝ × ℝ × ℝ) × S) (normal : ℝ → ℝ → S → ℝ × S)
    (comp : List (Vec3 × ℝ) → Quat → Option (ℝ × ℝ × ℝ)) (s0 : S)
    (n_runs n_steps : ℕ) (noise_sigma : ℝ) (seed : ℕ) :
    List (Option (ℝ × ℝ × ℝ)) × S :=
  let _ := s0
  mc_loop randn3 normal comp n_runs n_steps noise_sigma (seedFn seed)

/-- Checked division: fails (models a raisable numerical error) instead of
dividing by zero. -/
def cdiv (x d : ℝ) : Option ℝ := if d = 0 then none else some (x / d)

/-- Checked square root: fails on a negative radicand (NumPy would produce
NaN with an invalid-value warning). -/
def csqrt (x : ℝ) : Option ℝ := if x < 0 then none else some (Real.sqrt x)

/-- Checked arccos: fails outside `[-1, 1]` (NumPy would produce NaN). -/
def carccos (x : ℝ) : Option ℝ :=
  if x < -1 ∨ 1 < x then none else some (Real.arccos x)

/-- Checked `quat_normalize`: every hazardous step (square root, division)
is guarded. -/
def quat_normalizeC (q : Quat) : Option Quat :=
  (csqrt (q.w ^ 2 + q.x ^ 2 + q.y ^ 2 + q.z ^ 2)).bind fun nrm =>
    let d := nrm + 1e-15
    (cdiv q.w d).bind fun w' =>
      (cdiv q.x d).bind fun x' =>
        (cdiv q.y d).bind fun y' =>
          (cdiv q.z d).map fun z' => ⟨w', x', y', z'⟩

/-- Checked `axang_to_quat`. -/
def axang_to_quatC (n : Vec3) (th : ℝ) : Option Quat :=
  (csqrt (n.x ^ 2 + n.y ^ 2 + n.z ^ 2)).bind fun nrm =>
    let d := nrm + 1e-12
    (cdiv n.x d).bind fun nx =>
      (cdiv n.y d).bind fun ny =>
        (cdiv n.z d).map fun nz =>
          ⟨Real.cos (th / 2), Real.sin (th / 2) * nx,
            Real.sin (th / 2) * ny, Real.sin (th / 2) * nz⟩

/-- Checked `quat_to_axang`. -/
def quat_to_axangC (q : Quat) : Option (Vec3 × ℝ) :=
  (quat_normalizeC q).bind fun qn =>
    let w := clip qn.w (-1) 1
    (carccos w).bind fun ac =>
      let th := 2 * ac
      if th < 1e-12 then some (⟨1, 0, 0⟩, 0)
      else
        (csqrt (max (1 - w * w) 1e-12)).bind fun s =>
          (cdiv qn.x s).bind fun nx =>
            (cdiv qn.y s).bind fun ny =>
              (cdiv qn.z s).map fun nz => ((⟨nx, ny, nz⟩ : Vec3), th)

/-- Checked composition loop of `compose_seq`. -/
def compose_foldC : List (Vec3 × ℝ) → Quat → Option Quat
  | [], q => some q
  | p :: rest, q =>
      (axang_to_quatC p.1 p.2).bind fun dq =>
        compose_foldC rest (quat_mul dq q)

/-- Checked `compose_seq`. -/
def compose_seqC (seq : List (Vec3 × ℝ)) : Option Quat :=
  (compose_foldC seq qId).bind quat_normalizeC

/-- Checked `estimate_lambda_and_R`: the division `pi / th` happens only
under the guard `th > 1e-12` and is division-checked. -/
def estimate_lambda_and_RC (seq : List (Vec3 × ℝ)) : Option (ℝ × ℝ × ℝ) :=
  if seq.isEmpty then some (1, 1, 0)
  else
    (compose_seqC seq).bind fun qnet =>
      (quat_to_axangC qnet).bind fun ax =>
        let th := ax.2
        (if th > 1e-12 then cdiv Real.pi th else some 1).bind fun lam =>
          (compose_seqC (seq.map fun p => (p.1, lam * p.2))).map fun q1 =>
            (lam, R_of (quat_mul q1 q1), th)

/-- Checked `np.degrees`. -/
def degC (x : ℝ) : Option ℝ := cdiv (x * 180) Real.pi

/-- Checked `predict_reset_benefit`. -/
def predict_reset_benefitC (seq : List (Vec3 × ℝ)) (q_current : Quat) :
    Option (ℝ × ℝ × ℝ × ℝ × ℝ × ℝ) :=
  if seq.isEmpty then some (0, 0, 0, 1, 1, 0)
  else
    (estimate_lambda_and_RC seq).bind fun e =>
      let lam := e.1
      (compose_seqC seq).bind fun qf =>
        (quat_to_axangC (quat_mul qf q_current)).bind fun axn =>
          let scaled := seq.map fun p => (p.1, lam * p.2)
          (compose_seqC (scaled ++ scaled)).bind fun qr =>
            (quat_to_axangC (quat_mul qr q_current)).bind fun axw =>
              (degC (axn.2 - axw.2)).bind fun b =>
                (degC axn.2).bind fun dn =>
                  (degC axw.2).map fun dw =>
                    (b, dn, dw, lam, e.2.1, e.2.2)

/-- Source `montecarlo_robot.run_montecarlo(n_runs, n_steps, noise_sigma,
seed)` proper, with the real `try` body `mc_compute`. -/
def run_montecarlo {S : Type} (seedFn : ℕ → S)
    (randn3 : S → (ℝ × ℝ × ℝ) × S) (normal : ℝ → ℝ → S → ℝ × S) (s0 : S)
    (n_runs n_steps : ℕ) (noise_sigma : ℝ) (seed : ℕ) :
    List (Option (ℝ × ℝ × ℝ)) × S :=
  run_montecarloP seedFn randn3 normal mc_compute s0 n_runs n_steps
    noise_sigma seed

end

open Classical

/-! ## Helper lemmas -/

theorem qnorm_nonneg (q : Quat) : 0 ≤ qnorm q := Real.sqrt_nonneg _

theorem eps15_pos : (0 : ℝ) < 1e-15 := by norm_num

theorem eps12_pos : (0 : ℝ) < 1e-12 := by norm_num

theorem qnorm_add_eps_pos (q : Quat) : 0 < qnorm q + 1e-15 :=
  add_pos_of_nonneg_of_pos (qnorm_nonneg q) eps15_pos

theorem qnorm_div (q : Quat) (d : ℝ) (hd : 0 < d) :
    qnorm ⟨q.w / d, q.x / d, q.y / d, q.z / d⟩ = qnorm q / d := by
  have h : (q.w / d) ^ 2 + (q.x / d) ^ 2 + (q.y / d) ^ 2 + (q.z / d) ^ 2 =
      (q.w ^ 2 + q.x ^ 2 + q.y ^ 2 + q.z ^ 2) / d ^ 2 := by
    field_simp
  unfold qnorm
  rw [h, Real.sqrt_div (by positivity), Real.sqrt_sq hd.le]

theorem qnorm_normalize (q : Quat) :
    qnorm (quat_normalize q) = qnorm q / (qnorm q + 1e-15) := by
  have hd := qnorm_add_eps_pos q
  show qnorm ⟨q.w / (qnorm q + 1e-15), q.x / (qnorm q + 1e-15),
      q.y / (qnorm q + 1e-15), q.z / (qnorm q + 1e-15)⟩ = _
  exact qnorm_div q _ hd

theorem clip_le_one (x : ℝ) : clip x (-1) 1 ≤ 1 := min_le_right _ _

theorem neg_one_le_clip (x : ℝ) : -1 ≤ clip x (-1) 1 :=
  le_min (le_max_right _ _) (by norm_num)

theorem abs_clip_le_one (x : ℝ) : |clip x (-1) 1| ≤ 1 :=
  abs_le.mpr ⟨neg_one_le_clip x, clip_le_one x⟩

theorem R_of_nonneg (q : Quat) : 0 ≤ R_of q :=
  sub_nonneg.mpr (abs_clip_le_one q.w)

theorem R_of_le_one (q : Quat) : R_of q ≤ 1 := by
  have := abs_nonneg (clip q.w (-1) 1)
  unfold R_of
  linarith

theorem clip_neg_one_one_neg (x : ℝ) : clip (-x) (-1) 1 = -clip x (-1) 1 := by
  unfold clip
  rcases le_total x (-1) with h | h
  · rw [max_eq_right h, min_eq_left (by norm_num : (-1 : ℝ) ≤ 1),
      max_eq_left (by linarith : (-1 : ℝ) ≤ -x),
      min_eq_right (by linarith : (1 : ℝ) ≤ -x)]
    norm_num
  · rcases le_total 1 x with h2 | h2
    · rw [max_eq_left (by linarith : (-1 : ℝ) ≤ x), min_eq_right h2,
        max_eq_right (by linarith : -x ≤ (-1 : ℝ)),
        min_eq_left (by norm_num : (-1 : ℝ) ≤ 1)]
    · rw [max_eq_left h, min_eq_left h2,
        max_eq_left (by linarith : (-1 : ℝ) ≤ -x),
        min_eq_left (by linarith : -x ≤ (1 : ℝ))]

theorem estimate_R_bounds (seq : List (Vec3 × ℝ)) :
    0 ≤ (estimate_lambda_and_R seq).2.1 ∧ (estimate_lambda_and_R seq).2.1 ≤ 1 := by
  unfold estimate_lambda_and_R
  split
  · norm_num
  · exact ⟨R_of_nonneg _, R_of_le_one _⟩

theorem analyze_rows_eq_map (p : List (Vec3 × ℝ) → Quat → Option ℝ)
    (quats : List Quat) (tsAt : ℕ → ℝ) (window : ℕ) :
    ∀ fuel i, analyze_rows p quats tsAt window i fuel =
      (List.range fuel).map fun k => analyzeRow p quats tsAt window (i + k)
  | 0, _ => rfl
  | fuel + 1, i => by
      have h : (fun k => analyzeRow p quats tsAt window (i + Nat.succ k)) =
          fun k => analyzeRow p quats tsAt window (i + 1 + k) := by
        funext k
        congr 1
        omega
      rw [analyze_rows, analyze_rows_eq_map p quats tsAt window fuel (i + 1),
        List.range_succ_eq_map, List.map_cons, List.map_map]
      simp only [Function.comp_def]
      rw [h]
      simp

theorem analyze_rows_length (p : List (Vec3 × ℝ) → Quat → Option ℝ)
    (quats : List Quat) (tsAt : ℕ → ℝ) (window fuel i : ℕ) :
    (analyze_rows p quats tsAt window i fuel).length = fuel := by
  rw [analyze_rows_eq_map]
  simp

theorem analyze_rows_getElem (p : List (Vec3 × ℝ) → Quat → Option ℝ)
    (quats : List Quat) (tsAt : ℕ → ℝ) (window fuel i k : ℕ) :
    (analyze_rows p quats tsAt window i fuel)[k]? =
      if k < fuel then some (analyzeRow p quats tsAt window (i + k))
      else none := by
  rw [analyze_rows_eq_map, List.getElem?_map]
  split_ifs with h
  · rw [List.getElem?_range h]
    rfl
  · rw [List.getElem?_eq_none (by simp [List.length_range]; omega)]
    rfl

theorem mc_loop_eq_map {S : Type} (randn3 : S → (ℝ × ℝ × ℝ) × S)
    (normal : ℝ → ℝ → S → ℝ × S)
    (comp : List (Vec3 × ℝ) → Quat → Option (ℝ × ℝ × ℝ)) :
    ∀ (n_runs n_steps : ℕ) (sigma : ℝ) (s : S),
      (mc_loop randn3 normal comp n_runs n_steps sigma s).1 =
        (mc_inputs randn3 normal n_runs n_steps sigma s).map
          (fun sq => comp sq mc_qcurrent)
  | 0, _, _, _ => rfl
  | n + 1, ns, sigma, s => by
      simp only [mc_loop, mc_inputs, List.map_cons]
      exact congrArg _ (mc_loop_eq_map randn3 normal comp n ns sigma _)

theorem mc_inputs_length {S : Type} (randn3 : S → (ℝ × ℝ × ℝ) × S)
    (normal : ℝ → ℝ → S → ℝ × S) :
    ∀ (n_runs n_steps : ℕ) (sigma : ℝ) (s : S),
      (mc_inputs randn3 normal n_runs n_steps sigma s).length = n_runs
  | 0, _, _, _ => rfl
  | n + 1, ns, sigma, s => by
      simp only [mc_inputs, List.length_cons,
        mc_inputs_length randn3 normal n ns sigma]

theorem quat_normalizeC_eq (q : Quat) :
    quat_normalizeC q = some (quat_normalize q) := by
  have h0 : ¬ (q.w ^ 2 + q.x ^ 2 + q.y ^ 2 + q.z ^ 2 < (0 : ℝ)) :=
    not_lt.mpr (by positivity)
  have hd : Real.sqrt (q.w ^ 2 + q.x ^ 2 + q.y ^ 2 + q.z ^ 2) + 1e-15 ≠ 0 :=
    ne_of_gt (add_pos_of_nonneg_of_pos (Real.sqrt_nonneg _) eps15_pos)
  simp [quat_normalizeC, csqrt, cdiv, h0, hd, quat_normalize, qnorm]

theorem axang_to_quatC_eq (n : Vec3) (th : ℝ) :
    axang_to_quatC n th = some (axang_to_quat n th) := by
  have h0 : ¬ (n.x ^ 2 + n.y ^ 2 + n.z ^ 2 < (0 : ℝ)) :=
    not_lt.mpr (by positivity)
  have hd : Real.sqrt (n.x ^ 2 + n.y ^ 2 + n.z ^ 2) + 1e-12 ≠ 0 :=
    ne_of_gt (add_pos_of_nonneg_of_pos (Real.sqrt_nonneg _) eps12_pos)
  simp [axang_to_quatC, csqrt, cdiv, h0, hd, axang_to_quat, vnorm]

theorem quat_to_axangC_eq (q : Quat) :
    quat_to_axangC q = some (quat_to_axang q) := by
  have hw : ¬ (clip (quat_normalize q).w (-1) 1 < -1 ∨
      1 < clip (quat_normalize q).w (-1) 1) := by
    push_neg
    exact ⟨neg_one_le_clip _, clip_le_one _⟩
  have hmax : ¬ (max (1 - clip (quat_normalize q).w (-1) 1 *
      clip (quat_normalize q).w (-1) 1) 1e-12 < (0 : ℝ)) :=
    not_lt.mpr (le_trans eps12_pos.le (le_max_right _ _))
  have hs : Real.sqrt (max (1 - clip (quat_normalize q).w (-1) 1 *
      clip (quat_normalize q).w (-1) 1) 1e-12) ≠ 0 :=
    ne_of_gt (Real.sqrt_pos.mpr (lt_of_lt_of_le eps12_pos (le_max_right _ _)))
  simp only [quat_to_axangC, quat_normalizeC_eq, Option.some_bind, carccos]
  rw [if_neg hw]
  simp only [Option.some_bind, quat_to_axang]
  split_ifs with hth
  · rfl
  · simp [csqrt, cdiv, hmax, hs]

theorem compose_foldC_eq : ∀ (seq : List (Vec3 × ℝ)) (q : Quat),
    compose_foldC seq q = some (seq.foldl composeStep q)
  | [], _ => rfl
  | p :: rest, q => by
      rw [compose_foldC, axang_to_quatC_eq, Option.some_bind, List.foldl_cons]
      exact compose_foldC_eq rest _

theorem compose_seqC_eq (seq : List (Vec3 × ℝ)) :
    compose_seqC seq = some (compose_seq seq) := by
  rw [compose_seqC, compose_foldC_eq, Option.some_bind, compose_seq]
  exact quat_normalizeC_eq _

theorem estimate_lambda_and_RC_eq (seq : List (Vec3 × ℝ)) :
    estimate_lambda_and_RC seq = some (estimate_lambda_and_R seq) := by
  by_cases he : seq.isEmpty = true
  · rw [estimate_lambda_and_RC, estimate_lambda_and_R, if_pos he, if_pos he]
  · rw [estimate_lambda_and_RC, estimate_lambda_and_R, if_neg he, if_neg he]
    simp only [compose_seqC_eq, Option.some_bind, quat_to_axangC_eq]
    by_cases hth : (quat_to_axang (compose_seq seq)).2 > 1e-12
    · rw [if_pos hth, if_pos hth, cdiv,
        if_neg (ne_of_gt (lt_trans eps12_pos hth))]
      simp only [Option.some_bind, compose_seqC_eq, Option.map_some']
    · rw [if_neg hth, if_neg hth]
      simp only [Option.some_bind, compose_seqC_eq, Option.map_some']

theorem predict_reset_benefitC_eq (seq : List (Vec3 × ℝ)) (q_current : Quat) :
    predict_reset_benefitC seq q_current =
      some (predict_reset_benefit seq q_current) := by
  by_cases he : seq.isEmpty = true
  · rw [predict_reset_benefitC, predict_reset_benefit, if_pos he, if_pos he]
  · rw [predict_reset_benefitC, predict_reset_benefit, if_neg he, if_neg he]
    simp only [estimate_lambda_and_RC_eq, Option.some_bind, compose_seqC_eq,
      quat_to_axangC_eq, degC, cdiv, Real.pi_ne_zero, if_false,
      Option.map_some', deg]

theorem analyze_metrics_forall (P : MetricRow → Prop) (df : QuatFrame)
    (window : ℕ) (fps : ℝ) (p : List (Vec3 × ℝ) → Quat → Option ℝ)
    (h : ∀ i, P (analyzeRow p df.quats (frame_ts df fps) window i)) :
    List.Forall P (analyze_from_quatsP p df window fps).1 := by
  rw [analyze_from_quatsP]
  split_ifs with h1
  · exact trivial
  · dsimp only
    split_ifs with h2
    · exact trivial
    · dsimp only
      rw [List.forall_iff_forall_mem]
      intro r hr
      rw [analyze_rows_eq_map] at hr
      obtain ⟨k, hk, rfl⟩ := List.mem_map.mp hr
      exact h _

theorem CandProp_iff (r : MetricRow) :
    CandProp r ↔ r.R < 0.05 ∧ r.theta_net_deg > 1 ∧
      ∃ b, r.predicted_benefit_deg = some b ∧ b > 0 := by
  unfold CandProp
  cases hb : r.predicted_benefit_deg <;> simp [hb]

theorem vnorm_e1 : vnorm ⟨1, 0, 0⟩ = 1 := by
  unfold vnorm
  rw [show (1 : ℝ) ^ 2 + 0 ^ 2 + 0 ^ 2 = 1 by norm_num, Real.sqrt_one]

theorem qnorm_qId : qnorm ⟨1, 0, 0, 0⟩ = 1 := by
  unfold qnorm
  rw [show (1 : ℝ) ^ 2 + 0 ^ 2 + 0 ^ 2 + 0 ^ 2 = 1 by norm_num, Real.sqrt_one]

theorem push_e1_valid : ¬ (vnorm ⟨1, 0, 0⟩ < 1e-12 ∨ |(1 : ℝ)| < 1e-12) := by
  rw [vnorm_e1]
  push_neg
  constructor <;> norm_num

theorem tail_append_singleton {α : Type} (l : List α) (x : α) (h : l ≠ []) :
    (l ++ [x]).tail = l.tail ++ [x] := by
  cases l with
  | nil => exact absurd rfl h
  | cons a t => rfl

theorem push_N_eq (st : SO3ResetStream) (n : Vec3) (dth : ℝ) :
    (push_axis_angle_increment st n dth).N = st.N := by
  unfold push_axis_angle_increment
  split_ifs <;> rfl

theorem push_bound (st : SO3ResetStream) (n : Vec3) (dth : ℝ)
    (h : st.buf.length ≤ st.N) :
    (push_axis_angle_increment st n dth).buf.length ≤ st.N := by
  unfold push_axis_angle_increment
  split_ifs with hv
  · exact h
  · dsimp only
    split_ifs with h2
    · rw [List.length_tail]
      simp only [List.length_append, List.length_singleton] at h2 ⊢
      omega
    · simp only [List.length_append, List.length_singleton] at h2 ⊢
      omega

theorem push_evicts (st : SO3ResetStream) (n : Vec3) (dth : ℝ)
    (hv : ¬ (vnorm n < 1e-12 ∨ |dth| < 1e-12))
    (hfull : st.buf.length = st.N) (hN : 1 ≤ st.N) :
    (push_axis_angle_increment st n dth).buf =
      st.buf.tail ++ [(⟨n.x / (vnorm n + 1e-12), n.y / (vnorm n + 1e-12),
        n.z / (vnorm n + 1e-12)⟩, dth)] := by
  have hne : st.buf ≠ [] := List.ne_nil_of_length_pos (by omega)
  unfold push_axis_angle_increment
  rw [if_neg hv]
  dsimp only
  rw [if_pos (by simp only [List.length_append, List.length_singleton]; omega),
    tail_append_singleton _ _ hne]

theorem push_len (st : SO3ResetStream) (n : Vec3) (dth : ℝ)
    (hv : ¬ (vnorm n < 1e-12 ∨ |dth| < 1e-12)) :
    (push_axis_angle_increment st n dth).buf.length =
      if st.N < st.buf.length + 1 then st.buf.length
      else st.buf.length + 1 := by
  unfold push_axis_angle_increment
  rw [if_neg hv]
  dsimp only
  simp only [List.length_append, List.length_singleton]
  split_ifs with h
  · rw [List.length_tail]
    simp only [List.length_append, List.length_singleton]
    omega
  · simp only [List.length_append, List.length_singleton]

/-! ## Claim theorems -/

/-- C3: for all parameters `nRuns`, `nSteps`, `noiseSigma` and any fixed
seed, two calls of `run_montecarlo` with the same arguments produce
identical output tables.  With the global NumPy generator made explicit,
this is the statement that the output table does not depend on the ambient
generator state at call time, because `np.random.seed(seed)` overwrites it
once per call; two equal-argument calls therefore return equal tables. -/
theorem montecarlo_seed_determinism (S : Type) (seedFn : ℕ → S)
    (randn3 : S → (ℝ × ℝ × ℝ) × S) (normal : ℝ → ℝ → S → ℝ × S)
    (s0 s0' : S) (n_runs n_steps : ℕ) (noise_sigma : ℝ) (seed : ℕ) :
    (run_montecarlo seedFn randn3 normal s0 n_runs n_steps noise_sigma
        seed).1 =
      (run_montecarlo seedFn randn3 normal s0' n_runs n_steps noise_sigma
        seed).1 := rfl

/-- C7: the resetability metric `R = 1 - abs(clip(w, -1, 1))` applied by
`estimate_lambda_and_R` to the twice-applied quaternion is invariant under
a global sign flip of that quaternion (double-cover invariance). -/
theorem R_double_cover_invariance (q : Quat) : R_of (quat_neg q) = R_of q := by
  unfold R_of quat_neg
  dsimp only
  rw [clip_neg_one_one_neg, abs_neg]

/-- C8: on an empty rotation sequence both core functions return neutral
defaults: `estimate_lambda_and_R [] = (1.0, 1.0, 0.0)` and
`predict_reset_benefit [] qCurrent = (0, 0, 0, 1, 1, 0)` for every
`qCurrent`. -/
theorem empty_sequence_defaults :
    estimate_lambda_and_R [] = (1, 1, 0) ∧
      ∀ q : Quat, predict_reset_benefit [] q = (0, 0, 0, 1, 1, 0) :=
  ⟨rfl, fun _ => rfl⟩

/-- C9: for every input sequence the `R` returned by
`estimate_lambda_and_R` lies in `[0, 1]`, because the reset quaternion's
`w` is clamped to `[-1, 1]` before `R = 1 - |w|` is formed; consequently
every `R` entry of the analyzer's metrics table lies in `[0, 1]`. -/
theorem R_in_unit_interval :
    (∀ seq : List (Vec3 × ℝ),
        0 ≤ (estimate_lambda_and_R seq).2.1 ∧
          (estimate_lambda_and_R seq).2.1 ≤ 1) ∧
      ∀ (df : QuatFrame) (window : ℕ) (fps : ℝ),
        List.Forall (fun r => 0 ≤ r.R ∧ r.R ≤ 1)
          (analyze_from_quats df window fps).1 :=
  ⟨estimate_R_bounds, fun df window fps =>
    analyze_metrics_forall _ df window fps _ fun _ => estimate_R_bounds _⟩

/-- C10: `estimate_lambda_and_R` and `predict_reset_benefit` are total on
finite inputs: the guarded (exception-tracking) variants, in which every
arccos out-of-domain argument, negative radicand, or zero divisor fails,
always return `some` of the unguarded value, so the analyzer's exception
branch never fires and every emitted benefit is a real number. -/
theorem estimator_total_on_finite :
    (∀ seq : List (Vec3 × ℝ),
        estimate_lambda_and_RC seq = some (estimate_lambda_and_R seq)) ∧
      (∀ (seq : List (Vec3 × ℝ)) (q : Quat),
        predict_reset_benefitC seq q = some (predict_reset_benefit seq q)) ∧
      ∀ (df : QuatFrame) (window : ℕ) (fps : ℝ),
        List.Forall (fun r => r.predicted_benefit_deg.isSome = true)
          (analyze_from_quats df window fps).1 :=
  ⟨estimate_lambda_and_RC_eq, predict_reset_benefitC_eq,
    fun df window fps =>
      analyze_metrics_forall _ df window fps _ fun _ => rfl⟩

/-- C4: the candidates table returned by the analyzer is exactly the
filter of the metrics table by `R < 0.05 ∧ theta_net_deg > 1.0 ∧
predicted_benefit_deg > 0` (a NaN benefit never qualifies): membership in
the candidates is equivalent to membership in the metrics plus the three
threshold conditions, and the candidates are computed as a pure
`List.filter` of the returned metrics, which are left unchanged. -/
theorem candidate_filter_exact (df : QuatFrame) (window : ℕ) (fps : ℝ)
    (r : MetricRow) :
    (analyze_from_quats df window fps).2 =
      ((analyze_from_quats df window fps).1.filter
        fun r => decide (CandProp r)) ∧
    (r ∈ (analyze_from_quats df window fps).2 ↔
      r ∈ (analyze_from_quats df window fps).1 ∧
        r.R < 0.05 ∧ r.theta_net_deg > 1 ∧
        ∃ b, r.predicted_benefit_deg = some b ∧ b > 0) := by
  have hfilter : (analyze_from_quats df window fps).2 =
      ((analyze_from_quats df window fps).1.filter
        fun r => decide (CandProp r)) := by
    rw [analyze_from_quats, analyze_from_quatsP]
    split_ifs with h1
    · rfl
    · dsimp only
      split_ifs with h2
      · rfl
      · rfl
  refine ⟨hfilter, ?_⟩
  rw [hfilter, List.mem_filter, decide_eq_true_eq, CandProp_iff]

/-- C5: `analyze_from_quats` returns two empty tables whenever the series
is empty, lacks the quaternion columns, or has length at most
`window + 1`; otherwise it emits one metric row per index `i` from
`window` to `length - 2` inclusive, i.e. `length - 1 - window` rows. -/
theorem analyze_empty_guards (df : QuatFrame) (window : ℕ) (fps : ℝ) :
    ((df.quats.isEmpty = true ∨ df.hasCols = false ∨
        df.quats.length ≤ window + 1) →
      analyze_from_quats df window fps = ([], [])) ∧
    (df.hasCols = true → window + 1 < df.quats.length →
      (analyze_from_quats df window fps).1.length =
        df.quats.length - 1 - window) := by
  constructor
  · intro h
    rw [analyze_from_quats, analyze_from_quatsP]
    split_ifs with h1
    · rfl
    · dsimp only
      split_ifs with h2
      · rfl
      · exfalso
        rcases h with h | h | h
        · simp [h] at h1
        · simp [h] at h1
        · omega
  · intro hc hlen
    have hne : df.quats ≠ [] := List.ne_nil_of_length_pos (by omega)
    rw [analyze_from_quats, analyze_from_quatsP]
    rw [if_neg (by simp [hc, hne])]
    dsimp only
    rw [if_neg (by omega : ¬ (df.quats.length - 1 ≤ window))]
    dsimp only
    rw [analyze_rows_length]

/-- C6: a failure of the per-row predictor call is confined to that row:
for an arbitrary failure pattern `p`, the analyzer emits the same number
of rows as with the real (never-failing) predictor, and each emitted row
differs from the corresponding real row at most in its
`predicted_benefit_deg` field, which records exactly `p`'s outcome for
that row (`none` = NaN); correspondingly, the Monte Carlo loop always
emits one row per run, and row `i` is exactly the possibly-failing
computation applied to run `i`'s own inputs (`none` = NaN triple). -/
theorem failure_isolation_per_row :
    (∀ (p : List (Vec3 × ℝ) → Quat → Option ℝ) (df : QuatFrame)
        (window : ℕ) (fps : ℝ) (i : ℕ),
      (analyze_from_quatsP p df window fps).1.length =
          (analyze_from_quats df window fps).1.length ∧
      (analyze_from_quatsP p df window fps).1[i]? =
        Option.map
          (fun r =>
            { r with predicted_benefit_deg :=
                (p (window_seq df.quats window (window + i))
                  (quat_normalize (df.quats.getD (window + i) qId))) })
          ((analyze_from_quats df window fps).1[i]?)) ∧
    (∀ (S : Type) (randn3 : S → (ℝ × ℝ × ℝ) × S)
        (normal : ℝ → ℝ → S → ℝ × S)
        (comp : List (Vec3 × ℝ) → Quat → Option (ℝ × ℝ × ℝ))
        (seedFn : ℕ → S) (s0 : S) (n_runs n_steps : ℕ)
        (noise_sigma : ℝ) (seed : ℕ),
      (run_montecarloP seedFn randn3 normal comp s0 n_runs n_steps
          noise_sigma seed).1 =
        (mc_inputs randn3 normal n_runs n_steps noise_sigma
          (seedFn seed)).map (fun sq => comp sq mc_qcurrent) ∧
      (mc_inputs randn3 normal n_runs n_steps noise_sigma
          (seedFn seed)).length = n_runs) := by
  constructor
  · intro p df window fps i
    rw [analyze_from_quats, analyze_from_quatsP, analyze_from_quatsP]
    split_ifs with h1
    · simp
    · dsimp only
      split_ifs with h2
      · simp
      · dsimp only
        rw [analyze_rows_length, analyze_rows_length,
          analyze_rows_getElem, analyze_rows_getElem]
        refine ⟨rfl, ?_⟩
        split_ifs with h3
        · rfl
        · rfl
  · intro S randn3 normal comp seedFn s0 n_runs n_steps noise_sigma seed
    exact ⟨mc_loop_eq_map randn3 normal comp n_runs n_steps noise_sigma _,
      mc_inputs_length randn3 normal n_runs n_steps noise_sigma _⟩

/-- Witness for C5: at `df = ⟨true, [], none⟩`, `window = 50` the guard
fires and both tables are empty; at a 3-sample frame with `window = 1`
the analyzer emits `3 - 1 - 1 = 1` row. -/
theorem analyze_empty_guards_witness :
    analyze_from_quats ⟨true, [], none⟩ 50 10 = ([], []) ∧
      (analyze_from_quats ⟨true, [qId, qId, qId], none⟩ 1 10).1.length = 1 :=
  ⟨(analyze_empty_guards ⟨true, [], none⟩ 50 10).1 (Or.inl rfl), by
    have h := (analyze_empty_guards ⟨true, [qId, qId, qId], none⟩ 1 10).2
      rfl (by norm_num)
    simpa using h⟩

/-- C2 counterexample: the nonzero quaternion `[1, 0, 0, 0]` is mapped by
`quat_normalize` to a quaternion of norm `1 / (1 + 1e-15) ≠ 1`, refuting
unit norm (and the `max(‖q‖, ε)` divisor) for `quat_normalize`. -/
theorem normalize_unit_norm_counterexample :
    qnorm (quat_normalize ⟨1, 0, 0, 0⟩) ≠ 1 := by
  rw [qnorm_normalize, qnorm_qId]
  norm_num

/-- C2 (amended): `quat_normalize` divides componentwise by
`‖q‖ + 1e-15` (the source adds the epsilon rather than taking a max): the
divisor is strictly positive for every `q`, including the zero
quaternion, so no division by zero occurs, and the result's norm equals
`‖q‖ / (‖q‖ + 1e-15)`, which is strictly less than 1 (approaching unit
norm, never attaining it). -/
theorem normalize_norm_formula (q : Quat) :
    quat_normalize q =
      ⟨q.w / (qnorm q + 1e-15), q.x / (qnorm q + 1e-15),
        q.y / (qnorm q + 1e-15), q.z / (qnorm q + 1e-15)⟩ ∧
    0 < qnorm q + 1e-15 ∧
    qnorm (quat_normalize q) = qnorm q / (qnorm q + 1e-15) ∧
    qnorm (quat_normalize q) < 1 := by
  refine ⟨rfl, qnorm_add_eps_pos q, qnorm_normalize q, ?_⟩
  rw [qnorm_normalize, div_lt_one (qnorm_add_eps_pos q)]
  linarith [eps15_pos]

/-- C1 counterexample: at `window_sec = 0.29`, `dt = 0.1` the claimed
capacity is `max(1, round(2.9)) = 3`, but the stream truncates:
`N = max(1, int(2.9)) = 2`, and after three valid pushes the buffer holds
only 2 increments — the oldest entry was evicted a push earlier than the
claimed capacity allows. -/
theorem stream_capacity_round_counterexample :
    (push_axis_angle_increment (push_axis_angle_increment
        (push_axis_angle_increment (mkStream (29/100) (1/10)) ⟨1, 0, 0⟩ 1)
        ⟨1, 0, 0⟩ 1) ⟨1, 0, 0⟩ 1).buf.length = 2 ∧
      max 1 (round ((29 : ℚ) / 100 / (1 / 10))).toNat = 3 := by
  constructor
  · have h0N : (mkStream (29/100) (1/10)).N = 2 := by
      unfold mkStream pytrunc
      rw [show ((29 : ℚ)/100) / (1/10) = 29/10 by norm_num,
        if_pos (by norm_num : (0 : ℚ) ≤ 29/10),
        show ⌊(29 : ℚ)/10⌋ = 2 by norm_num]
      rfl
    have h0b : (mkStream (29/100) (1/10)).buf.length = 0 := rfl
    have h1 := push_len (mkStream (29/100) (1/10)) ⟨1, 0, 0⟩ 1 push_e1_valid
    rw [h0N, h0b] at h1
    norm_num at h1
    have h1N :
        (push_axis_angle_increment (mkStream (29/100) (1/10))
          ⟨1, 0, 0⟩ 1).N = 2 := by
      rw [push_N_eq, h0N]
    have h2 := push_len (push_axis_angle_increment (mkStream (29/100) (1/10))
      ⟨1, 0, 0⟩ 1) ⟨1, 0, 0⟩ 1 push_e1_valid
    rw [h1N, h1] at h2
    norm_num at h2
    have h2N : (push_axis_angle_increment (push_axis_angle_increment
        (mkStream (29/100) (1/10)) ⟨1, 0, 0⟩ 1) ⟨1, 0, 0⟩ 1).N = 2 := by
      rw [push_N_eq, h1N]
    have h3 := push_len (push_axis_angle_increment (push_axis_angle_increment
      (mkStream (29/100) (1/10)) ⟨1, 0, 0⟩ 1) ⟨1, 0, 0⟩ 1) ⟨1, 0, 0⟩ 1
      push_e1_valid
    rw [h2N, h2] at h3
    norm_num at h3
    exact h3
  · rw [show ((29 : ℚ)/100) / (1/10) = 29/10 by norm_num,
      show round ((29 : ℚ)/10) = 3 by norm_num [round_eq]]
    rfl

/-- C1 (amended): the stream's capacity is
`N = max(1, int(window_sec / dt))` with Python `int` truncation toward
zero (not rounding), fixed at construction with an empty buffer; every
push leaves the buffer at size at most `N`, and a valid push onto a full
buffer appends the new normalized increment and evicts exactly the oldest
entry (FIFO). -/
theorem stream_capacity_trunc_fifo (window_sec dt : ℚ)
    (st : SO3ResetStream) (n : Vec3) (dth : ℝ) :
    (mkStream window_sec dt).N =
      max 1 (pytrunc (window_sec / dt)).toNat ∧
    (mkStream window_sec dt).buf = [] ∧
    (st.buf.length ≤ st.N →
      (push_axis_angle_increment st n dth).buf.length ≤ st.N) ∧
    (st.buf.length = st.N → 1 ≤ st.N →
      ¬ (vnorm n < 1e-12 ∨ |dth| < 1e-12) →
      (push_axis_angle_increment st n dth).buf =
        st.buf.tail ++ [(⟨n.x / (vnorm n + 1e-12), n.y / (vnorm n + 1e-12),
          n.z / (vnorm n + 1e-12)⟩, dth)]) :=
  ⟨rfl, rfl, push_bound st n dth,
    fun h1 h2 h3 => push_evicts st n dth h3 h1 h2⟩

/-- Witness for C1 (amended): a push on the freshly constructed stream
(`window_sec = 0.2`, `dt = 0.005`, so `N = 40`) keeps the size bound, and
a valid push onto a full one-slot buffer evicts the old entry and leaves
exactly the new normalized increment. -/
theorem stream_capacity_trunc_fifo_witness :
    (push_axis_angle_increment (mkStream (1/5) (1/200))
        ⟨1, 0, 0⟩ 1).buf.length ≤ (mkStream (1/5) (1/200)).N ∧
    (push_axis_angle_increment
        (⟨1/200, 1, [(⟨1, 0, 0⟩, 1)]⟩ : SO3ResetStream) ⟨1, 0, 0⟩ 1).buf =
      ([(⟨1, 0, 0⟩, (1 : ℝ))] : List (Vec3 × ℝ)).tail ++
        [(⟨1 / (vnorm ⟨1, 0, 0⟩ + 1e-12), 0 / (vnorm ⟨1, 0, 0⟩ + 1e-12),
          0 / (vnorm ⟨1, 0, 0⟩ + 1e-12)⟩, 1)] :=
  ⟨(stream_capacity_trunc_fifo (1/5) (1/200) (mkStream (1/5) (1/200))
      ⟨1, 0, 0⟩ 1).2.2.1 (Nat.zero_le _),
   (stream_capacity_trunc_fifo (1/5) (1/200)
      (⟨1/200, 1, [(⟨1, 0, 0⟩, 1)]⟩ : SO3ResetStream) ⟨1, 0, 0⟩ 1).2.2.2
      rfl (by decide) push_e1_valid⟩
